import Mathlib

/-!
Verification of the Westminster Confession parser (parse-westminster.py).

The source is a single-pass, line-oriented parser.  We embed it shallowly:
strings are `String`/`List Char`, each `re.sub` call becomes a deterministic
left-to-right scanner (the regexes involved are backtracking-free: every
quantified class excludes the character that follows it), and the main
`while` loop becomes a structural recursion over the list of lines (the
loop advances its index by exactly one in every branch, and the title
lookahead only reads the nine lines following the current one).
-/

namespace Westminster

/-- ASCII whitespace, as matched by Python's default whitespace class on the
inputs this parser handles. -/
def isPySpace (c : Char) : Bool :=
  c = ' ' || c = '\t' || c = '\n' || c = '\r' || c = '\x0b' || c = '\x0c'

/-- Python `str.strip()` on a character list. -/
def pyStripL (s : List Char) : List Char :=
  ((s.dropWhile isPySpace).reverse.dropWhile isPySpace).reverse

/-- Python `str.strip()`. -/
def pyStrip (s : String) : String :=
  String.mk (pyStripL s.data)

/-- Auxiliary scanner for `re.sub(r'\s+', ' ', text)`: the flag records
whether the previous character was part of a whitespace run. -/
def collapseAux : Bool → List Char → List Char
  | _, [] => []
  | prevSpace, c :: cs =>
    if isPySpace c then
      if prevSpace then collapseAux true cs else ' ' :: collapseAux true cs
    else c :: collapseAux false cs

/-- `re.sub(r'\s+', ' ', text)`: every maximal whitespace run becomes one
space. -/
def collapseWsL (s : List Char) : List Char :=
  collapseAux false s

/-- Python `' '.join(lines)`. -/
def joinSpace : List (List Char) → List Char
  | [] => []
  | [l] => l
  | l :: ls => l ++ ' ' :: joinSpace ls

/-- Python substring containment `needle in hay`. -/
def occursIn (needle : List Char) : List Char → Bool
  | [] => needle.isEmpty
  | c :: cs => needle.isPrefixOf (c :: cs) || occursIn needle cs

/-- The opening of a PCUS variant tag. -/
def tagPCUS : List Char := "[PCUS ".data

/-- The opening of a UPCUSA variant tag. -/
def tagUPCUSA : List Char := "[UPCUSA ".data

/-- Match `tag` followed by `[^\]]+` followed by `]` at the head of `s`;
return the captured body and the remainder.  This is exactly the (unique)
match of the regex fragment, since `[^\]]+` cannot cross the closing
bracket. -/
def matchTag (tag s : List Char) : Option (List Char × List Char) :=
  if tag.isPrefixOf s then
    match (s.drop tag.length).dropWhile (fun c => c != ']') with
    | ']' :: tl =>
      let body := (s.drop tag.length).takeWhile (fun c => c != ']')
      if body.isEmpty then none else some (body, tl)
    | _ => none
  else none

/-- Match `tag1 body1] [tag2 body2]` at the head of `s` (the paired-variant
patterns); return both bodies and the remainder. -/
def matchPairTag (tag1 tag2 s : List Char) : Option (List Char × List Char × List Char) :=
  (matchTag tag1 s).bind fun br =>
    if br.2.head? = some ' ' then
      (matchTag tag2 br.2.tail).map fun br2 => (br.1, br2.1, br2.2)
    else none

/-- Matcher for `\[PCUS [^\]]+\] \[UPCUSA ([^\]]+)\]`: both `clean_title`
(replacement `\2`) and `clean_content` (replacement `\1`, its only group)
keep the UPCUSA body. -/
def mPairPU (s : List Char) : Option (List Char × List Char) :=
  (matchPairTag tagPCUS tagUPCUSA s).map fun btr => (btr.2.1, btr.2.2)

/-- Matcher for `\[UPCUSA ([^\]]+)\] \[PCUS [^\]]+\]`: both cleaners keep
the UPCUSA body (replacement `\1`). -/
def mPairUP (s : List Char) : Option (List Char × List Char) :=
  (matchPairTag tagUPCUSA tagPCUS s).map fun btr => (btr.1, btr.2.2)

/-- Matcher for `\[\d+\.\d+\]` (reference codes); the replacement is empty. -/
def mRef (s : List Char) : Option (List Char × List Char) :=
  match s with
  | '[' :: rest =>
    let d1 := rest.takeWhile Char.isDigit
    if d1.isEmpty then none
    else
      match rest.drop d1.length with
      | '.' :: rest2 =>
        let d2 := rest2.takeWhile Char.isDigit
        if d2.isEmpty then none
        else
          match rest2.drop d2.length with
          | ']' :: tl => some ([], tl)
          | _ => none
      | _ => none
  | _ => none

/-- Fuelled global-substitution scanner: at each position either the matcher
fires (emit the replacement, resume after the match) or the head character
is copied.  With fuel at least the length of the string this is exactly
`re.sub` for our matchers, each of which consumes at least one character. -/
def subScanF (m : List Char → Option (List Char × List Char)) : Nat → List Char → List Char
  | _, [] => []
  | 0, s => s
  | fuel + 1, c :: cs =>
    match m (c :: cs) with
    | some (r, t) => r ++ subScanF m fuel t
    | none => c :: subScanF m fuel cs

/-- Global substitution (`re.sub`) driven by matcher `m`. -/
def subScan (m : List Char → Option (List Char × List Char)) (s : List Char) : List Char :=
  subScanF m s.length s

/-- The four variant-resolution substitutions, in source order: the two
paired forms, then lone PCUS, then lone UPCUSA.  `clean_title` and
`clean_content` perform the same four substitutions. -/
def variantSubL (s : List Char) : List Char :=
  subScan (matchTag tagUPCUSA)
    (subScan (matchTag tagPCUS)
      (subScan mPairUP
        (subScan mPairPU s)))

/-- `clean_title` on a character list: the four variant substitutions
followed by `strip()`. -/
def cleanTitleL (t : List Char) : List Char :=
  pyStripL (variantSubL t)

/-- `clean_title`. -/
def cleanTitle (t : String) : String :=
  String.mk (cleanTitleL t.data)

/-- `clean_content` on character lists: join with spaces, strip reference
codes, resolve variants, strip a leading resolved-title occurrence, then
collapse whitespace and strip. -/
def cleanContentL (contentLines : List (List Char)) (title : Option (List Char)) : List Char :=
  let text := joinSpace contentLines
  let text := subScan mRef text
  let text := variantSubL text
  let text :=
    match title with
    | some t =>
      if t.isEmpty then text
      else
        let ct := cleanTitleL t
        if ct.isPrefixOf text then pyStripL (text.drop ct.length) else text
    | none => text
  pyStripL (collapseWsL text)

/-- `clean_content`. -/
def cleanContent (contentLines : List String) (title : Option String) : String :=
  String.mk (cleanContentL (contentLines.map String.data) (title.map String.data))

/-- The fixed keyword-to-topics table, in source (insertion) order. -/
def chapterKeywords : List (String × List String) :=
  [ ("holy scripture", ["scripture", "revelation", "authority", "word of god"])
  , ("god", ["god", "trinity", "attributes"])
  , ("eternal decree", ["predestination", "election", "sovereignty", "decrees"])
  , ("creation", ["creation", "providence"])
  , ("providence", ["providence", "sovereignty"])
  , ("fall", ["sin", "fall", "adam", "original sin"])
  , ("covenant", ["covenant", "grace", "works"])
  , ("christ", ["christ", "mediator", "jesus", "incarnation", "atonement"])
  , ("free will", ["free will", "depravity"])
  , ("calling", ["calling", "regeneration", "holy spirit"])
  , ("justification", ["justification", "faith", "salvation"])
  , ("adoption", ["adoption", "sonship"])
  , ("sanctification", ["sanctification", "holiness"])
  , ("faith", ["faith", "belief"])
  , ("repentance", ["repentance"])
  , ("good works", ["good works", "obedience"])
  , ("perseverance", ["perseverance", "assurance"])
  , ("assurance", ["assurance", "salvation"])
  , ("law", ["law", "ten commandments", "moral law"])
  , ("liberty", ["liberty", "conscience", "freedom"])
  , ("worship", ["worship", "sabbath"])
  , ("oath", ["oaths", "vows"])
  , ("magistrate", ["civil government", "authority"])
  , ("marriage", ["marriage", "divorce"])
  , ("church", ["church", "ecclesiology"])
  , ("communion", ["communion of saints", "fellowship"])
  , ("sacrament", ["sacraments", "ordinances"])
  , ("baptism", ["baptism"])
  , ("lord\x27s supper", ["lord\x27s supper", "eucharist", "communion"])
  , ("censure", ["church discipline", "excommunication"])
  , ("synod", ["synods", "councils", "church government"])
  , ("death", ["death", "resurrection", "intermediate state"])
  , ("judgment", ["last judgment", "final judgment", "eschatology"]) ]

/-- `get_topics`: scan the lowercased title for each key phrase, extending
the accumulator with the matched topics in table order; fall back to
`["theology"]` when nothing matched. -/
def getTopics (title : String) : List String :=
  let titleLower := title.data.map Char.toLower
  let topics := chapterKeywords.foldl
    (fun acc kv => if occursIn kv.1.data titleLower then acc ++ kv.2 else acc) []
  if topics.isEmpty then ["theology"] else topics

/-- `re.match(r'^CHAPTER [IVX]+ \(PCUS\)', line)`: the literal keyword, a
nonempty run of Roman-numeral characters, then the variant-code tag. -/
def isChapterHeader (s : List Char) : Bool :=
  "CHAPTER ".data.isPrefixOf s &&
    (let r := s.drop 8
     let run := r.takeWhile (fun c => c == 'I' || c == 'V' || c == 'X')
     !run.isEmpty && " (PCUS)".data.isPrefixOf (r.drop run.length))

/-- The multi-book names of the first book-list pattern. -/
def ordinalBooks : List String :=
  ["Samuel", "Kings", "Chronicles", "Corinthians", "Thessalonians", "Timothy", "Peter", "John"]

/-- `re.match(r'^[IVX]+ (Samuel|...|John)', line)`. -/
def matchBookA (s : List Char) : Bool :=
  let run := s.takeWhile (fun c => c == 'I' || c == 'V' || c == 'X')
  !run.isEmpty &&
    (match s.drop run.length with
     | ' ' :: r => ordinalBooks.any (fun b => b.data.isPrefixOf r)
     | _ => false)

/-- The canonical book-name list of the second book-list pattern, in source
order. -/
def bibleBooks : List String :=
  [ "Genesis", "Exodus", "Leviticus", "Numbers", "Deuteronomy", "Joshua", "Judges", "Ruth"
  , "Samuel", "Kings", "Chronicles", "Ezra", "Nehemiah", "Esther", "Job", "Psalms", "Proverbs"
  , "Ecclesiastes", "Isaiah", "Jeremiah", "Lamentations", "Ezekiel", "Daniel", "Hosea", "Joel"
  , "Amos", "Obadiah", "Jonah", "Micah", "Nahum", "Habakkuk", "Zephaniah", "Haggai", "Zechariah"
  , "Malachi", "Matthew", "Mark", "Luke", "John", "Acts", "Romans", "Corinthians", "Galatians"
  , "Ephesians", "Philippians", "Colossians", "Thessalonians", "Timothy", "Titus", "Philemon"
  , "Hebrews", "James", "Peter", "Jude", "Revelation" ]

/-- `re.match(r'^(Genesis|...|Revelation)', line)`. -/
def matchBookB (s : List Char) : Bool :=
  bibleBooks.any (fun b => b.data.isPrefixOf s)

/-- The skip test for empty lines and boilerplate (the stripped line is
tested; the final clause guards against re-collecting the raw title line). -/
def isSkipLine (line : List Char) (currentTitle : Option (List Char)) : Bool :=
  line.isEmpty ||
  "Presbyterian Church".data.isPrefixOf line ||
  "in the United States".data.isPrefixOf line ||
  "The United Presbyterian".data.isPrefixOf line ||
  "CHAPTER".data.isPrefixOf line ||
  "Of the Old Testament".data.isPrefixOf line ||
  "Of the New Testament".data.isPrefixOf line ||
  ("Of ".data.isPrefixOf line && currentTitle == some line)

/-- Title reconstruction over the (stripped) lookahead lines: a title
starts at the first line with the `Of ` lead-in; once started, nonempty
lines not opening with a bracket continue it, and anything else ends it. -/
def collectTitle (acc : List (List Char)) : List (List Char) → List (List Char)
  | [] => acc
  | l :: ls =>
    if "Of ".data.isPrefixOf l then collectTitle (acc ++ [l]) ls
    else if !acc.isEmpty && !l.isEmpty && !("[".data.isPrefixOf l) then
      collectTitle (acc ++ [l]) ls
    else if !acc.isEmpty then acc
    else collectTitle acc ls

/-- An emitted section record. -/
structure Section where
  chapter : String
  title : String
  content : String
  topics : List String
deriving Repr, DecidableEq

/-- The mutable loop state of `parse_westminster`. -/
structure PState where
  sections : List Section
  currentChapter : Option Nat
  currentTitle : Option (List Char)
  currentContent : List (List Char)
  chapterNum : Nat
deriving Repr

/-- The finalize-and-emit step shared by the next-header and end-of-input
finalization points: emit only when a chapter is open, its title is truthy
and its cleaned content is nonempty. -/
def emitIfAny (st : PState) : List Section :=
  match st.currentChapter with
  | none => st.sections
  | some c =>
    match st.currentTitle with
    | none => st.sections
    | some t =>
      if t.isEmpty then st.sections
      else if (cleanContentL st.currentContent (some t)).isEmpty then st.sections
      else
        st.sections ++
          [⟨toString c, String.mk (cleanTitleL t),
            String.mk (cleanContentL st.currentContent (some t)), getTopics (String.mk t)⟩]

/-- One iteration of the parsing loop on the stripped current line;
`lookahead` is the list of lines after the current one. -/
def stepLine (rawLine : String) (lookahead : List String) (st : PState) : PState :=
  let line := pyStripL rawLine.data
  if isChapterHeader line then
    let secs := emitIfAny st
    let n := st.chapterNum + 1
    let parts := collectTitle [] ((lookahead.take 9).map (fun l => pyStripL l.data))
    { sections := secs
      currentChapter := some n
      currentTitle := if parts.isEmpty then none else some (joinSpace parts)
      currentContent := []
      chapterNum := n }
  else if isSkipLine line st.currentTitle then st
  else
    match st.currentChapter with
    | none => st
    | some _ =>
      if matchBookA line then st
      else if matchBookB line then st
      else { st with currentContent := st.currentContent ++ [line] }

/-- Run the loop over all lines. -/
def runLines : List String → PState → PState
  | [], st => st
  | l :: ls, st => runLines ls (stepLine l ls st)

/-- The initial loop state. -/
def initState : PState :=
  ⟨[], none, none, [], 0⟩

/-- The full pass: run the loop, then the end-of-input finalization. -/
def parseSections (lines : List String) : List Section :=
  emitIfAny (runLines lines initState)

/-- Outcome of a chapter finalization point. -/
inductive ChapStatus where
  | emitted
  | noTitle
  | emptyContent
deriving Repr, DecidableEq

/-- The finalization outcome for an open chapter in state `st` (`none` when
no chapter is open). -/
def statusOf (st : PState) : Option ChapStatus :=
  match st.currentChapter with
  | none => none
  | some _ =>
    match st.currentTitle with
    | none => some ChapStatus.noTitle
    | some t =>
      if t.isEmpty then some ChapStatus.noTitle
      else if (cleanContentL st.currentContent (some t)).isEmpty then
        some ChapStatus.emptyContent
      else some ChapStatus.emitted

/-- Append the finalization outcome for `st`, if a chapter is open. -/
def pushStatus (st : PState) (acc : List ChapStatus) : List ChapStatus :=
  match statusOf st with
  | some s => acc ++ [s]
  | none => acc

/-- Instrumented run: record the outcome of every finalization point (one
per detected chapter header) while stepping exactly as `runLines` does. -/
def runStatuses : List String → PState → List ChapStatus → List ChapStatus
  | [], st, acc => pushStatus st acc
  | l :: ls, st, acc =>
    if isChapterHeader (pyStripL l.data) then
      runStatuses ls (stepLine l ls st) (pushStatus st acc)
    else
      runStatuses ls (stepLine l ls st) acc

/-- Per-chapter finalization outcomes of the full pass. -/
def parseStatuses (lines : List String) : List ChapStatus :=
  runStatuses lines initState []

/-- Number of lines whose stripped form matches the chapter-header pattern. -/
def headerCount (lines : List String) : Nat :=
  (lines.filter (fun l => isChapterHeader (pyStripL l.data))).length

/-- Matchers that fire only on strings beginning with an open bracket. -/
def HeadBr (m : List Char → Option (List Char × List Char)) : Prop :=
  ∀ s r t, m s = some (r, t) → ∃ tl, s = '[' :: tl

/-- The matcher fires at no position of `s`. -/
def NoFire (m : List Char → Option (List Char × List Char)) (s : List Char) : Prop :=
  ∀ n, m (s.drop n) = none

/-- The string `[PCUS x] [UPCUSA y]`. -/
def pairPU (x y : List Char) : List Char :=
  tagPCUS ++ x ++ ']' :: ' ' :: (tagUPCUSA ++ y ++ [']'])

/-- The string `[UPCUSA y] [PCUS x]`. -/
def pairUP (y x : List Char) : List Char :=
  tagUPCUSA ++ y ++ ']' :: ' ' :: (tagPCUS ++ x ++ [']'])

/-- The string `[PCUS x]`. -/
def lonePCUS (x : List Char) : List Char :=
  tagPCUS ++ x ++ [']']

/-- The string `[UPCUSA y]`. -/
def loneUPCUSA (y : List Char) : List Char :=
  tagUPCUSA ++ y ++ [']']

/-- The loop invariant: chapter bookkeeping (the open chapter always holds
the current counter value), title well-formedness (a reconstructed title
carries the `Of ` lead-in), strictly increasing emitted chapter numbers
below the counter, and the shape of every emitted section. -/
def StInv (st : PState) : Prop :=
  (st.currentChapter = none ∧ st.chapterNum = 0 ∨
    st.currentChapter = some st.chapterNum ∧ 1 ≤ st.chapterNum) ∧
  (∀ t, st.currentTitle = some t → ∃ r, t = 'O' :: 'f' :: ' ' :: r) ∧
  (∃ ns : List Nat,
    st.sections.map Section.chapter = ns.map (fun n => toString n) ∧
    List.Pairwise (· < ·) ns ∧ ∀ n ∈ ns, 1 ≤ n ∧ n < st.chapterNum) ∧
  (∀ s ∈ st.sections, ∃ raw cont : List Char,
    (∃ r, raw = 'O' :: 'f' :: ' ' :: r) ∧
    s.title = String.mk (cleanTitleL raw) ∧
    s.topics = getTopics (String.mk raw) ∧
    s.content = String.mk cont ∧ cont ≠ [])

/-- Number of finalization points that actually emitted. -/
def countEmitted (l : List ChapStatus) : Nat :=
  (l.filter (fun s => s == ChapStatus.emitted)).length

/-! ### Scanner lemmas -/

theorem tagPCUS_eq : tagPCUS = ['[', 'P', 'C', 'U', 'S', ' '] := rfl

theorem tagUPCUSA_eq : tagUPCUSA = ['[', 'U', 'P', 'C', 'U', 'S', 'A', ' '] := rfl

theorem takeWhile_all_append {p : Char → Bool} {b : List Char} (x : Char) (tl : List Char)
    (hb : ∀ c ∈ b, p c = true) (hx : p x = false) :
    (b ++ x :: tl).takeWhile p = b := by
  induction b with
  | nil => simp [List.takeWhile_cons, hx]
  | cons a t ih =>
    have ha : p a = true := hb a (by simp)
    simp only [List.cons_append, List.takeWhile_cons, ha, if_true]
    rw [ih (fun c hc => hb c (by simp [hc]))]

theorem dropWhile_all_append {p : Char → Bool} {b : List Char} (x : Char) (tl : List Char)
    (hb : ∀ c ∈ b, p c = true) (hx : p x = false) :
    (b ++ x :: tl).dropWhile p = x :: tl := by
  induction b with
  | nil => simp [List.dropWhile_cons, hx]
  | cons a t ih =>
    have ha : p a = true := hb a (by simp)
    simp only [List.cons_append, List.dropWhile_cons, ha, if_true]
    exact ih (fun c hc => hb c (by simp [hc]))

theorem matchTag_eq_some {tag s b t : List Char} (h : matchTag tag s = some (b, t)) :
    s = tag ++ b ++ ']' :: t ∧ b ≠ [] ∧ ∀ c ∈ b, c ≠ ']' := by
  unfold matchTag at h
  split at h
  case isFalse => exact absurd h (by simp)
  case isTrue hp =>
    obtain ⟨u, hu⟩ := List.isPrefixOf_iff_prefix.mp hp
    have hdrop : s.drop tag.length = u := by rw [← hu, List.drop_left]
    rw [hdrop] at h
    split at h
    case h_2 => exact absurd h (by simp)
    case h_1 tl heq =>
      simp only [] at h
      split at h
      case isTrue => exact absurd h (by simp)
      case isFalse hne =>
        have hbody : u.takeWhile (fun c => c != ']') = b ∧ tl = t := by
          have := Option.some.inj h
          constructor
          · exact congrArg Prod.fst this
          · exact congrArg Prod.snd this
        obtain ⟨hb, ht⟩ := hbody
        have hsplit : u = b ++ ']' :: t := by
          have := List.takeWhile_append_dropWhile (fun c => c != ']') u
          rw [hb, heq, ht] at this
          exact this.symm
        refine ⟨by rw [← hu, hsplit, List.append_assoc], ?_, ?_⟩
        · intro hbn
          rw [hbn] at hb
          simp [← hb] at hne
        · intro c hc
          have := List.mem_takeWhile_imp (hb ▸ hc)
          simpa using this

theorem matchTag_construct {tag b : List Char} (tl : List Char) (hb : b ≠ [])
    (hbr : ∀ c ∈ b, c ≠ ']') :
    matchTag tag (tag ++ b ++ ']' :: tl) = some (b, tl) := by
  have hpre : tag.isPrefixOf (tag ++ (b ++ ']' :: tl)) = true := by
    rw [ List.isPrefixOf_iff_prefix]
    exact List.prefix_append tag _
  have hall : ∀ c ∈ b, (fun c => c != ']') c = true := by
    intro c hc; simpa using hbr c hc
  have hxf : (fun c => c != ']') ']' = false := by simp
  unfold matchTag
  rw [List.append_assoc]
  rw [if_pos hpre, List.drop_left]
  rw [dropWhile_all_append ']' tl hall hxf]
  simp only [takeWhile_all_append ']' tl hall hxf]
  rw [if_neg (by simpa using hb)]

theorem headBr_matchTag {tag : List Char} (c0 : List Char) (htag : tag = '[' :: c0) :
    HeadBr (matchTag tag) := by
  intro s r t h
  obtain ⟨hs, -, -⟩ := matchTag_eq_some h
  exact ⟨c0 ++ r ++ ']' :: t, by rw [hs, htag]; simp⟩

theorem matchPairTag_eq_some {t1 t2 s b1 b2 t : List Char}
    (h : matchPairTag t1 t2 s = some (b1, b2, t)) :
    ∃ r1, matchTag t1 s = some (b1, r1) := by
  unfold matchPairTag at h
  cases hmt : matchTag t1 s with
  | none => rw [hmt] at h; simp at h
  | some br =>
    rw [hmt, Option.some_bind] at h
    by_cases hsp : br.2.head? = some ' '
    · rw [if_pos hsp] at h
      cases hmt2 : matchTag t2 br.2.tail with
      | none => rw [hmt2] at h; simp at h
      | some br2 =>
        rw [hmt2, Option.map_some'] at h
        simp only [Option.some.injEq, Prod.mk.injEq] at h
        exact ⟨br.2, congrArg some (by rw [← h.1])⟩
    · rw [if_neg hsp] at h; simp at h

theorem headBr_mPairPU : HeadBr mPairPU := by
  intro s r t h
  unfold mPairPU at h
  cases hp : matchPairTag tagPCUS tagUPCUSA s with
  | none => rw [hp] at h; exact absurd h (by simp)
  | some tr =>
    obtain ⟨b1, b2, t'⟩ := tr
    obtain ⟨r1, hmt⟩ := matchPairTag_eq_some hp
    obtain ⟨hs, -, -⟩ := matchTag_eq_some hmt
    refine ⟨'P' :: 'C' :: 'U' :: 'S' :: ' ' :: (b1 ++ ']' :: r1), ?_⟩
    rw [hs, tagPCUS_eq]
    rfl

theorem headBr_mPairUP : HeadBr mPairUP := by
  intro s r t h
  unfold mPairUP at h
  cases hp : matchPairTag tagUPCUSA tagPCUS s with
  | none => rw [hp] at h; exact absurd h (by simp)
  | some tr =>
    obtain ⟨b1, b2, t'⟩ := tr
    obtain ⟨r1, hmt⟩ := matchPairTag_eq_some hp
    obtain ⟨hs, -, -⟩ := matchTag_eq_some hmt
    refine ⟨'U' :: 'P' :: 'C' :: 'U' :: 'S' :: 'A' :: ' ' :: (b1 ++ ']' :: r1), ?_⟩
    rw [hs, tagUPCUSA_eq]
    rfl

theorem headBr_mRef : HeadBr mRef := by
  intro s r t h
  unfold mRef at h
  split at h
  · next rest => exact ⟨rest, rfl⟩
  · exact absurd h (by simp)

theorem subScanF_nil (m : List Char → Option (List Char × List Char)) (f : Nat) :
    subScanF m f [] = [] := by
  cases f <;> rfl

/-- A step where the matcher fires and consumes the whole remaining string. -/
theorem subScan_fire_all {m : List Char → Option (List Char × List Char)} {s r : List Char}
    (hs : s ≠ []) (h : m s = some (r, [])) : subScan m s = r := by
  cases s with
  | nil => exact absurd rfl hs
  | cons c cs =>
    show subScanF m (cs.length + 1) (c :: cs) = r
    rw [subScanF, h]
    show r ++ subScanF m cs.length [] = r
    rw [subScanF_nil, List.append_nil]

/-- A step where the head character cannot start a match. -/
theorem subScan_cons_nb {m : List Char → Option (List Char × List Char)}
    (hm : HeadBr m) {c : Char} (hc : c ≠ '[') (cs : List Char) :
    subScan m (c :: cs) = c :: subScan m cs := by
  have hnone : m (c :: cs) = none := by
    cases h : m (c :: cs) with
    | none => rfl
    | some rt =>
      obtain ⟨tl, htl⟩ := hm _ rt.1 rt.2 (by rw [h])
      exact absurd (List.head_eq_of_cons_eq htl) hc
  show subScanF m (cs.length + 1) (c :: cs) = c :: subScan m cs
  rw [subScanF, hnone]
  rfl

theorem subScanF_eq_self {m : List Char → Option (List Char × List Char)} :
    ∀ (f : Nat) (s : List Char), NoFire m s → subScanF m f s = s := by
  intro f
  induction f with
  | zero => intro s _; cases s <;> rfl
  | succ f ih =>
    intro s hs
    cases s with
    | nil => rfl
    | cons c cs =>
      have h0 : m (c :: cs) = none := by simpa using hs 0
      rw [subScanF, h0]
      have hcs : NoFire m cs := fun n => by simpa [List.drop_succ_cons] using hs (n + 1)
      show c :: subScanF m f cs = c :: cs
      rw [ih cs hcs]

theorem subScan_eq_self {m : List Char → Option (List Char × List Char)} {s : List Char}
    (h : NoFire m s) : subScan m s = s :=
  subScanF_eq_self _ s h

theorem noFire_nil {m : List Char → Option (List Char × List Char)} (h : m [] = none) :
    NoFire m [] := by
  intro n
  simpa using h

theorem noFire_cons {m : List Char → Option (List Char × List Char)} {c : Char}
    {cs : List Char} (h : m (c :: cs) = none) (hs : NoFire m cs) : NoFire m (c :: cs) := by
  intro n
  cases n with
  | zero => simpa using h
  | succ n => simpa [List.drop_succ_cons] using hs n

/-- A block of bracket-free characters can be skipped over by any matcher
that fires only on an open bracket. -/
theorem noFire_append {m : List Char → Option (List Char × List Char)} (hm : HeadBr m)
    (a b : List Char) (ha : ∀ c ∈ a, c ≠ '[') (hb : NoFire m b) : NoFire m (a ++ b) := by
  induction a with
  | nil => simpa using hb
  | cons c t ih =>
    have hc : c ≠ '[' := ha c (by simp)
    have htail : NoFire m (t ++ b) := ih (fun x hx => ha x (by simp [hx]))
    refine noFire_cons ?_ htail
    cases h : m (c :: (t ++ b)) with
    | none => rfl
    | some rt =>
      obtain ⟨tl, htl⟩ := hm _ rt.1 rt.2 (by rw [h])
      exact absurd (List.head_eq_of_cons_eq htl) hc

theorem noFire_all_nb {m : List Char → Option (List Char × List Char)} (hm : HeadBr m)
    (h0 : m [] = none) {s : List Char} (hs : ∀ c ∈ s, c ≠ '[') : NoFire m s := by
  have := noFire_append hm s [] hs (noFire_nil h0)
  simpa using this

theorem m_none_of_head_nb {m : List Char → Option (List Char × List Char)} (hm : HeadBr m)
    {c : Char} (hc : c ≠ '[') (tl : List Char) : m (c :: tl) = none := by
  cases h : m (c :: tl) with
  | none => rfl
  | some rt =>
    obtain ⟨tl', htl⟩ := hm _ rt.1 rt.2 (by rw [h])
    exact absurd (List.head_eq_of_cons_eq htl) hc

theorem matchTag_none_of_bad_tag {tag s : List Char} (h : tag.isPrefixOf s = false) :
    matchTag tag s = none := by
  unfold matchTag
  rw [h]
  rfl

theorem matchTag_none_snd {b : Char} {ta : List Char} {c : Char} {tl : List Char}
    (hne : b ≠ c) : matchTag ('[' :: b :: ta) ('[' :: c :: tl) = none := by
  apply matchTag_none_of_bad_tag
  show (('[' == '[') && ((b == c) && ta.isPrefixOf tl)) = false
  simp [hne]

theorem mPairPU_none_notP {c : Char} {tl : List Char} (h : c ≠ 'P') :
    mPairPU ('[' :: c :: tl) = none := by
  unfold mPairPU matchPairTag
  rw [tagPCUS_eq]
  rw [matchTag_none_snd (Ne.symm h)]
  rfl

theorem mPairUP_none_notU {c : Char} {tl : List Char} (h : c ≠ 'U') :
    mPairUP ('[' :: c :: tl) = none := by
  unfold mPairUP matchPairTag
  rw [tagUPCUSA_eq]
  rw [matchTag_none_snd (Ne.symm h)]
  rfl

theorem matchTag_tagPCUS_none_notP {c : Char} {tl : List Char} (h : c ≠ 'P') :
    matchTag tagPCUS ('[' :: c :: tl) = none := by
  rw [tagPCUS_eq]
  exact matchTag_none_snd (Ne.symm h)

theorem matchTag_tagUPCUSA_none_notU {c : Char} {tl : List Char} (h : c ≠ 'U') :
    matchTag tagUPCUSA ('[' :: c :: tl) = none := by
  rw [tagUPCUSA_eq]
  exact matchTag_none_snd (Ne.symm h)

theorem mRef_none_nondigit {c : Char} {tl : List Char} (h : c.isDigit = false) :
    mRef ('[' :: c :: tl) = none := by
  unfold mRef
  simp [List.takeWhile_cons, h]

theorem mPairPU_none_lone {x : List Char} (hx : x ≠ []) (hbr : ∀ c ∈ x, c ≠ ']') :
    mPairPU (tagPCUS ++ x ++ [']']) = none := by
  unfold mPairPU matchPairTag
  rw [matchTag_construct [] hx hbr, Option.some_bind]
  rfl

theorem mPairUP_none_lone {y : List Char} (hy : y ≠ []) (hbr : ∀ c ∈ y, c ≠ ']') :
    mPairUP (tagUPCUSA ++ y ++ [']']) = none := by
  unfold mPairUP matchPairTag
  rw [matchTag_construct [] hy hbr, Option.some_bind]
  rfl

theorem matchPairTag_construct {t1 t2 b1 b2 : List Char} (tl : List Char)
    (hb1 : b1 ≠ []) (hbr1 : ∀ c ∈ b1, c ≠ ']')
    (hb2 : b2 ≠ []) (hbr2 : ∀ c ∈ b2, c ≠ ']') :
    matchPairTag t1 t2 (t1 ++ b1 ++ ']' :: ' ' :: (t2 ++ b2 ++ ']' :: tl)) =
      some (b1, b2, tl) := by
  unfold matchPairTag
  rw [matchTag_construct (' ' :: (t2 ++ b2 ++ ']' :: tl)) hb1 hbr1, Option.some_bind]
  simp only [List.head?_cons, List.tail_cons, if_pos]
  rw [matchTag_construct tl hb2 hbr2, Option.map_some']

/-! ### Variant-annotation shapes

The four shapes named by the resolution policy: a paired annotation in
either order and a lone annotation of either code, with bracket-free
bodies. -/

theorem lonePCUS_eq (x : List Char) :
    lonePCUS x = '[' :: 'P' :: 'C' :: 'U' :: 'S' :: ' ' :: (x ++ [']']) := by
  simp [lonePCUS, tagPCUS_eq]

theorem loneUPCUSA_eq (y : List Char) :
    loneUPCUSA y = '[' :: 'U' :: 'P' :: 'C' :: 'U' :: 'S' :: 'A' :: ' ' :: (y ++ [']']) := by
  simp [loneUPCUSA, tagUPCUSA_eq]

theorem pairPU_eq (x y : List Char) :
    pairPU x y =
      '[' :: 'P' :: 'C' :: 'U' :: 'S' :: ' ' :: (x ++ ']' :: ' ' :: loneUPCUSA y) := by
  simp [pairPU, loneUPCUSA, tagPCUS_eq, tagUPCUSA_eq]

theorem pairUP_eq (y x : List Char) :
    pairUP y x =
      '[' :: 'U' :: 'P' :: 'C' :: 'U' :: 'S' :: 'A' :: ' ' :: (y ++ ']' :: ' ' :: lonePCUS x) := by
  simp [pairUP, lonePCUS, tagUPCUSA_eq, tagPCUS_eq]

theorem nb_append (a b : List Char) (ha : ∀ c ∈ a, c ≠ '[') (hb : ∀ c ∈ b, c ≠ '[') :
    ∀ c ∈ a ++ b, c ≠ '[' := by
  intro c hc
  rcases List.mem_append.mp hc with h | h
  · exact ha c h
  · exact hb c h

theorem noFire_lonePCUS {m : List Char → Option (List Char × List Char)} (hm : HeadBr m)
    (hnil : m [] = none) {x : List Char} (h0 : m (lonePCUS x) = none)
    (hx : ∀ c ∈ x, c ≠ '[') : NoFire m (lonePCUS x) := by
  rw [lonePCUS_eq] at h0 ⊢
  refine noFire_cons h0 ?_
  exact noFire_all_nb hm hnil
    (nb_append ['P', 'C', 'U', 'S', ' '] (x ++ [']']) (by decide)
      (nb_append x [']'] hx (by decide)))

theorem noFire_loneUPCUSA {m : List Char → Option (List Char × List Char)} (hm : HeadBr m)
    (hnil : m [] = none) {y : List Char} (h0 : m (loneUPCUSA y) = none)
    (hy : ∀ c ∈ y, c ≠ '[') : NoFire m (loneUPCUSA y) := by
  rw [loneUPCUSA_eq] at h0 ⊢
  refine noFire_cons h0 ?_
  exact noFire_all_nb hm hnil
    (nb_append ['U', 'P', 'C', 'U', 'S', 'A', ' '] (y ++ [']']) (by decide)
      (nb_append y [']'] hy (by decide)))

theorem noFire_pairPU {m : List Char → Option (List Char × List Char)} (hm : HeadBr m)
    {x y : List Char} (h0 : m (pairPU x y) = none) (hx : ∀ c ∈ x, c ≠ '[')
    (hL : NoFire m (loneUPCUSA y)) : NoFire m (pairPU x y) := by
  rw [pairPU_eq] at h0 ⊢
  refine noFire_cons h0 ?_
  exact noFire_append hm ['P', 'C', 'U', 'S', ' '] (x ++ ']' :: ' ' :: loneUPCUSA y) (by decide)
    (noFire_append hm x (']' :: ' ' :: loneUPCUSA y) hx
      (noFire_cons (m_none_of_head_nb hm (by decide) _)
        (noFire_cons (m_none_of_head_nb hm (by decide) _) hL)))

theorem noFire_pairUP {m : List Char → Option (List Char × List Char)} (hm : HeadBr m)
    {y x : List Char} (h0 : m (pairUP y x) = none) (hy : ∀ c ∈ y, c ≠ '[')
    (hL : NoFire m (lonePCUS x)) : NoFire m (pairUP y x) := by
  rw [pairUP_eq] at h0 ⊢
  refine noFire_cons h0 ?_
  exact noFire_append hm ['U', 'P', 'C', 'U', 'S', 'A', ' '] (y ++ ']' :: ' ' :: lonePCUS x)
    (by decide)
    (noFire_append hm y (']' :: ' ' :: lonePCUS x) hy
      (noFire_cons (m_none_of_head_nb hm (by decide) _)
        (noFire_cons (m_none_of_head_nb hm (by decide) _) hL)))

theorem headBr_mtP : HeadBr (matchTag tagPCUS) :=
  headBr_matchTag ['P', 'C', 'U', 'S', ' '] tagPCUS_eq

theorem headBr_mtU : HeadBr (matchTag tagUPCUSA) :=
  headBr_matchTag ['U', 'P', 'C', 'U', 'S', 'A', ' '] tagUPCUSA_eq

theorem mPairPU_nil : mPairPU [] = none := rfl

theorem mPairUP_nil : mPairUP [] = none := rfl

theorem mtP_nil : matchTag tagPCUS [] = none := rfl

theorem mtU_nil : matchTag tagUPCUSA [] = none := rfl

theorem mRef_nil : mRef [] = none := rfl

theorem variantSubL_id_nb {s : List Char} (hs : ∀ c ∈ s, c ≠ '[') : variantSubL s = s := by
  unfold variantSubL
  rw [subScan_eq_self (noFire_all_nb headBr_mPairPU mPairPU_nil hs),
    subScan_eq_self (noFire_all_nb headBr_mPairUP mPairUP_nil hs),
    subScan_eq_self (noFire_all_nb headBr_mtP mtP_nil hs),
    subScan_eq_self (noFire_all_nb headBr_mtU mtU_nil hs)]

theorem variantSubL_pairPU (x y : List Char) (hx : x ≠ []) (hy : y ≠ [])
    (hxc : ∀ c ∈ x, c ≠ ']') (_hxb : ∀ c ∈ x, c ≠ '[')
    (hyc : ∀ c ∈ y, c ≠ ']') (hyb : ∀ c ∈ y, c ≠ '[') :
    variantSubL (pairPU x y) = y := by
  unfold variantSubL
  have h1 : subScan mPairPU (pairPU x y) = y := by
    apply subScan_fire_all
    · rw [pairPU_eq]; simp
    · unfold mPairPU pairPU
      rw [matchPairTag_construct [] hx hxc hy hyc, Option.map_some']
  rw [h1, subScan_eq_self (noFire_all_nb headBr_mPairUP mPairUP_nil hyb),
    subScan_eq_self (noFire_all_nb headBr_mtP mtP_nil hyb),
    subScan_eq_self (noFire_all_nb headBr_mtU mtU_nil hyb)]

theorem variantSubL_pairUP (y x : List Char) (hx : x ≠ []) (hy : y ≠ [])
    (hxc : ∀ c ∈ x, c ≠ ']') (hxb : ∀ c ∈ x, c ≠ '[')
    (hyc : ∀ c ∈ y, c ≠ ']') (hyb : ∀ c ∈ y, c ≠ '[') :
    variantSubL (pairUP y x) = y := by
  unfold variantSubL
  have h1 : subScan mPairPU (pairUP y x) = pairUP y x := by
    refine subScan_eq_self (noFire_pairUP headBr_mPairPU ?_ hyb ?_)
    · rw [pairUP_eq]; exact mPairPU_none_notP (by decide)
    · exact noFire_lonePCUS headBr_mPairPU mPairPU_nil (mPairPU_none_lone hx hxc) hxb
  have h2 : subScan mPairUP (pairUP y x) = y := by
    apply subScan_fire_all
    · rw [pairUP_eq]; simp
    · unfold mPairUP pairUP
      rw [matchPairTag_construct [] hy hyc hx hxc, Option.map_some']
  rw [h1, h2, subScan_eq_self (noFire_all_nb headBr_mtP mtP_nil hyb),
    subScan_eq_self (noFire_all_nb headBr_mtU mtU_nil hyb)]

theorem variantSubL_lonePCUS (x : List Char) (hx : x ≠ [])
    (hxc : ∀ c ∈ x, c ≠ ']') (hxb : ∀ c ∈ x, c ≠ '[') :
    variantSubL (lonePCUS x) = x := by
  unfold variantSubL
  have h1 : subScan mPairPU (lonePCUS x) = lonePCUS x :=
    subScan_eq_self
      (noFire_lonePCUS headBr_mPairPU mPairPU_nil (mPairPU_none_lone hx hxc) hxb)
  have h2 : subScan mPairUP (lonePCUS x) = lonePCUS x := by
    refine subScan_eq_self (noFire_lonePCUS headBr_mPairUP mPairUP_nil ?_ hxb)
    rw [lonePCUS_eq]; exact mPairUP_none_notU (by decide)
  have h3 : subScan (matchTag tagPCUS) (lonePCUS x) = x := by
    apply subScan_fire_all
    · rw [lonePCUS_eq]; simp
    · exact matchTag_construct [] hx hxc
  rw [h1, h2, h3, subScan_eq_self (noFire_all_nb headBr_mtU mtU_nil hxb)]

theorem variantSubL_loneUPCUSA (y : List Char) (hy : y ≠ [])
    (hyc : ∀ c ∈ y, c ≠ ']') (hyb : ∀ c ∈ y, c ≠ '[') :
    variantSubL (loneUPCUSA y) = y := by
  unfold variantSubL
  have h1 : subScan mPairPU (loneUPCUSA y) = loneUPCUSA y := by
    refine subScan_eq_self (noFire_loneUPCUSA headBr_mPairPU mPairPU_nil ?_ hyb)
    rw [loneUPCUSA_eq]; exact mPairPU_none_notP (by decide)
  have h2 : subScan mPairUP (loneUPCUSA y) = loneUPCUSA y :=
    subScan_eq_self
      (noFire_loneUPCUSA headBr_mPairUP mPairUP_nil (mPairUP_none_lone hy hyc) hyb)
  have h3 : subScan (matchTag tagPCUS) (loneUPCUSA y) = loneUPCUSA y := by
    refine subScan_eq_self (noFire_loneUPCUSA headBr_mtP mtP_nil ?_ hyb)
    rw [loneUPCUSA_eq]; exact matchTag_tagPCUS_none_notP (by decide)
  have h4 : subScan (matchTag tagUPCUSA) (loneUPCUSA y) = y := by
    apply subScan_fire_all
    · rw [loneUPCUSA_eq]; simp
    · exact matchTag_construct [] hy hyc
  rw [h1, h2, h3, h4]

theorem subScan_mRef_lonePCUS (x : List Char) (hxb : ∀ c ∈ x, c ≠ '[') :
    subScan mRef (lonePCUS x) = lonePCUS x := by
  refine subScan_eq_self (noFire_lonePCUS headBr_mRef mRef_nil ?_ hxb)
  rw [lonePCUS_eq]; exact mRef_none_nondigit (by decide)

theorem subScan_mRef_loneUPCUSA (y : List Char) (hyb : ∀ c ∈ y, c ≠ '[') :
    subScan mRef (loneUPCUSA y) = loneUPCUSA y := by
  refine subScan_eq_self (noFire_loneUPCUSA headBr_mRef mRef_nil ?_ hyb)
  rw [loneUPCUSA_eq]; exact mRef_none_nondigit (by decide)

theorem subScan_mRef_pairPU (x y : List Char) (hxb : ∀ c ∈ x, c ≠ '[')
    (hyb : ∀ c ∈ y, c ≠ '[') : subScan mRef (pairPU x y) = pairPU x y := by
  refine subScan_eq_self (noFire_pairPU headBr_mRef ?_ hxb ?_)
  · rw [pairPU_eq]; exact mRef_none_nondigit (by decide)
  · refine noFire_loneUPCUSA headBr_mRef mRef_nil ?_ hyb
    rw [loneUPCUSA_eq]; exact mRef_none_nondigit (by decide)

theorem subScan_mRef_pairUP (y x : List Char) (hxb : ∀ c ∈ x, c ≠ '[')
    (hyb : ∀ c ∈ y, c ≠ '[') : subScan mRef (pairUP y x) = pairUP y x := by
  refine subScan_eq_self (noFire_pairUP headBr_mRef ?_ hyb ?_)
  · rw [pairUP_eq]; exact mRef_none_nondigit (by decide)
  · refine noFire_lonePCUS headBr_mRef mRef_nil ?_ hxb
    rw [lonePCUS_eq]; exact mRef_none_nondigit (by decide)

theorem cleanContentL_single_none (s : List Char) :
    cleanContentL [s] none = pyStripL (collapseWsL (variantSubL (subScan mRef s))) := rfl

/-! ### Strip lemmas -/

theorem head?_append_left {α : Type} (a b : List α) (ha : a ≠ []) : (a ++ b).head? = a.head? := by
  cases a with
  | nil => exact absurd rfl ha
  | cons c t => rfl

theorem dropWhile_head?_false {p : Char → Bool} {l : List Char} {c : Char}
    (h : (l.dropWhile p).head? = some c) : p c = false := by
  induction l with
  | nil => simp at h
  | cons a t ih =>
    rw [List.dropWhile_cons] at h
    by_cases hp : p a
    · rw [if_pos hp] at h; exact ih h
    · rw [if_neg hp] at h
      simp at h
      rw [← h]
      simpa using hp

theorem dropWhile_eq_self_head {p : Char → Bool} {l : List Char}
    (h : ∀ c, l.head? = some c → p c = false) : l.dropWhile p = l := by
  cases l with
  | nil => rfl
  | cons a t =>
    rw [List.dropWhile_cons]
    simp [h a rfl]

theorem pyStripL_idem (s : List Char) : pyStripL (pyStripL s) = pyStripL s := by
  have hthead : ∀ c, (s.dropWhile isPySpace).head? = some c → isPySpace c = false :=
    fun _ hc => dropWhile_head?_false hc
  show pyStripL (((s.dropWhile isPySpace).reverse.dropWhile isPySpace).reverse) =
    ((s.dropWhile isPySpace).reverse.dropWhile isPySpace).reverse
  set t := s.dropWhile isPySpace with ht
  set X := t.reverse.dropWhile isPySpace with hX
  have hsplit : t = X.reverse ++ (t.reverse.takeWhile isPySpace).reverse := by
    have h0 : t.reverse = t.reverse.takeWhile isPySpace ++ X := by
      rw [hX]
      exact (List.takeWhile_append_dropWhile isPySpace t.reverse).symm
    have h1 := congrArg List.reverse h0
    simpa [List.reverse_append] using h1
  have h1 : X.reverse.dropWhile isPySpace = X.reverse := by
    apply dropWhile_eq_self_head
    intro c hc
    have hne : X.reverse ≠ [] := by
      intro hemp
      rw [hemp] at hc
      simp at hc
    refine hthead c ?_
    rw [hsplit, head?_append_left _ _ hne, hc]
  have h2 : X.dropWhile isPySpace = X := by
    apply dropWhile_eq_self_head
    intro c hc
    rw [hX] at hc
    exact dropWhile_head?_false hc
  show ((X.reverse.dropWhile isPySpace).reverse.dropWhile isPySpace).reverse = X.reverse
  rw [h1, List.reverse_reverse, h2]

/-! ### Claim C1: paired- and lone-variant resolution -/

/-- Claim C1, counterexample: on the adjacent pair `[UPCUSA a] [PCUS b]` both
cleaners keep the text of the first-named code (UPCUSA), not the
second-named one (PCUS) as the claim requires. -/
theorem c1_counterexample :
    cleanTitle "[UPCUSA a] [PCUS b]" = "a" ∧
    cleanContent ["[UPCUSA a] [PCUS b]"] none = "a" ∧
    ("a" : String) ≠ "b" := by
  refine ⟨by decide, by decide, by decide⟩

/-- Claim C1 as amended: for adjacent pairs in either order, the Title
Resolver and the Content Normalizer keep the UPCUSA code's text (the
second-named code's text only in the `[PCUS x] [UPCUSA y]` order) and
discard the PCUS text; a lone variant tag of either code is unwrapped.
Stated for nonempty bracket-free tag bodies, over which the regex match is
exact; the content results additionally collapse whitespace runs. -/
theorem c1_amended (x y : List Char) (hx : x ≠ []) (hy : y ≠ [])
    (hxc : ∀ c ∈ x, c ≠ ']' ∧ c ≠ '[') (hyc : ∀ c ∈ y, c ≠ ']' ∧ c ≠ '[') :
    cleanTitle (String.mk (pairPU x y)) = String.mk (pyStripL y) ∧
    cleanTitle (String.mk (pairUP y x)) = String.mk (pyStripL y) ∧
    cleanTitle (String.mk (lonePCUS x)) = String.mk (pyStripL x) ∧
    cleanTitle (String.mk (loneUPCUSA y)) = String.mk (pyStripL y) ∧
    cleanContent [String.mk (pairPU x y)] none = String.mk (pyStripL (collapseWsL y)) ∧
    cleanContent [String.mk (pairUP y x)] none = String.mk (pyStripL (collapseWsL y)) ∧
    cleanContent [String.mk (lonePCUS x)] none = String.mk (pyStripL (collapseWsL x)) ∧
    cleanContent [String.mk (loneUPCUSA y)] none = String.mk (pyStripL (collapseWsL y)) := by
  have hxr : ∀ c ∈ x, c ≠ ']' := fun c hc => (hxc c hc).1
  have hxb : ∀ c ∈ x, c ≠ '[' := fun c hc => (hxc c hc).2
  have hyr : ∀ c ∈ y, c ≠ ']' := fun c hc => (hyc c hc).1
  have hyb : ∀ c ∈ y, c ≠ '[' := fun c hc => (hyc c hc).2
  refine ⟨?_, ?_, ?_, ?_, ?_, ?_, ?_, ?_⟩
  · show String.mk (pyStripL (variantSubL (pairPU x y))) = String.mk (pyStripL y)
    rw [variantSubL_pairPU x y hx hy hxr hxb hyr hyb]
  · show String.mk (pyStripL (variantSubL (pairUP y x))) = String.mk (pyStripL y)
    rw [variantSubL_pairUP y x hx hy hxr hxb hyr hyb]
  · show String.mk (pyStripL (variantSubL (lonePCUS x))) = String.mk (pyStripL x)
    rw [variantSubL_lonePCUS x hx hxr hxb]
  · show String.mk (pyStripL (variantSubL (loneUPCUSA y))) = String.mk (pyStripL y)
    rw [variantSubL_loneUPCUSA y hy hyr hyb]
  · show String.mk (cleanContentL [pairPU x y] none) = String.mk (pyStripL (collapseWsL y))
    rw [cleanContentL_single_none, subScan_mRef_pairPU x y hxb hyb,
      variantSubL_pairPU x y hx hy hxr hxb hyr hyb]
  · show String.mk (cleanContentL [pairUP y x] none) = String.mk (pyStripL (collapseWsL y))
    rw [cleanContentL_single_none, subScan_mRef_pairUP y x hxb hyb,
      variantSubL_pairUP y x hx hy hxr hxb hyr hyb]
  · show String.mk (cleanContentL [lonePCUS x] none) = String.mk (pyStripL (collapseWsL x))
    rw [cleanContentL_single_none, subScan_mRef_lonePCUS x hxb,
      variantSubL_lonePCUS x hx hxr hxb]
  · show String.mk (cleanContentL [loneUPCUSA y] none) = String.mk (pyStripL (collapseWsL y))
    rw [cleanContentL_single_none, subScan_mRef_loneUPCUSA y hyb,
      variantSubL_loneUPCUSA y hy hyr hyb]

/-- Witness for the amended C1 at the spec's own example bodies. -/
theorem c1_amended_witness :
    cleanTitle (String.mk (pairPU "Civil".data "Civil Government".data)) =
      String.mk (pyStripL "Civil Government".data) ∧
    cleanTitle (String.mk (pairUP "Civil Government".data "Civil".data)) =
      String.mk (pyStripL "Civil Government".data) ∧
    cleanTitle (String.mk (lonePCUS "Civil".data)) = String.mk (pyStripL "Civil".data) ∧
    cleanTitle (String.mk (loneUPCUSA "Civil Government".data)) =
      String.mk (pyStripL "Civil Government".data) ∧
    cleanContent [String.mk (pairPU "Civil".data "Civil Government".data)] none =
      String.mk (pyStripL (collapseWsL "Civil Government".data)) ∧
    cleanContent [String.mk (pairUP "Civil Government".data "Civil".data)] none =
      String.mk (pyStripL (collapseWsL "Civil Government".data)) ∧
    cleanContent [String.mk (lonePCUS "Civil".data)] none =
      String.mk (pyStripL (collapseWsL "Civil".data)) ∧
    cleanContent [String.mk (loneUPCUSA "Civil Government".data)] none =
      String.mk (pyStripL (collapseWsL "Civil Government".data)) :=
  c1_amended "Civil".data "Civil Government".data (by decide) (by decide)
    (by decide) (by decide)

/-! ### Claim C2: idempotence of the Title Resolver -/

/-- Claim C2, counterexample: the Title Resolver is not idempotent.  On
`[UPCUSA [PCUS ]a]` the lone-UPCUSA rule exposes a fresh `[PCUS a]` tag,
which only a second pass unwraps. -/
theorem c2_counterexample :
    cleanTitle "[UPCUSA [PCUS ]a]" = "[PCUS a]" ∧
    cleanTitle (cleanTitle "[UPCUSA [PCUS ]a]") = "a" ∧
    cleanTitle (cleanTitle "[UPCUSA [PCUS ]a]") ≠ cleanTitle "[UPCUSA [PCUS ]a]" := by
  refine ⟨by decide, by decide, by decide⟩

/-- Claim C2 as amended: the Title Resolver is idempotent on every string
whose resolution leaves no opening bracket behind (in particular whenever
one pass of the four substitutions has removed every annotation marker);
a nested bracket inside a tag body can defeat this, as the counterexample
shows. -/
theorem c2_amended (x : String) (h : '[' ∉ (cleanTitle x).data) :
    cleanTitle (cleanTitle x) = cleanTitle x := by
  have hs : ∀ c ∈ (cleanTitle x).data, c ≠ '[' := fun c hc hceq => h (hceq ▸ hc)
  show String.mk (pyStripL (variantSubL (cleanTitle x).data)) = cleanTitle x
  rw [variantSubL_id_nb hs]
  show String.mk (pyStripL (pyStripL (variantSubL x.data))) = cleanTitle x
  rw [pyStripL_idem]
  rfl

/-- Witness for the amended C2. -/
theorem c2_amended_witness :
    cleanTitle (cleanTitle "Of [PCUS a] [UPCUSA b]") = cleanTitle "Of [PCUS a] [UPCUSA b]" :=
  c2_amended "Of [PCUS a] [UPCUSA b]" (by decide)

/-! ### Claim C7: reference-code stripping -/

/-- Claim C7: the Content Normalizer removes `[<digits>.<digits>]` codes
entirely; on the single line with a null title the result is exactly the
sentence. -/
theorem c7 : cleanContent ["[6.001] All men are sinners."] none = "All men are sinners." := by
  decide

/-! ### Parsing-loop lemmas -/

/-- Exactly how `emitIfAny` can behave: either no section is appended, or
the open chapter with its truthy title and nonempty cleaned content is
appended at the end. -/
theorem emitIfAny_sections_cases (st : PState) :
    emitIfAny st = st.sections ∨
    ∃ c t, st.currentChapter = some c ∧ st.currentTitle = some t ∧ ¬t.isEmpty ∧
      ¬(cleanContentL st.currentContent (some t)).isEmpty ∧
      emitIfAny st = st.sections ++
        [⟨toString c, String.mk (cleanTitleL t),
          String.mk (cleanContentL st.currentContent (some t)), getTopics (String.mk t)⟩] := by
  unfold emitIfAny
  split
  next => exact Or.inl rfl
  next c hc =>
    split
    next => exact Or.inl rfl
    next t ht =>
      split
      next hte => exact Or.inl rfl
      next hte =>
        split
        next hce => exact Or.inl rfl
        next hce => exact Or.inr ⟨c, t, hc, ht, hte, hce, rfl⟩

theorem isPrefixOf_Of {l : List Char} (h : "Of ".data.isPrefixOf l = true) :
    ∃ r, l = 'O' :: 'f' :: ' ' :: r := by
  obtain ⟨u, hu⟩ := List.isPrefixOf_iff_prefix.mp h
  exact ⟨u, by rw [← hu]; rfl⟩

theorem collectTitle_head (ls : List (List Char)) :
    ∀ acc, (∀ hd, acc.head? = some hd → ∃ r, hd = 'O' :: 'f' :: ' ' :: r) →
      ∀ hd, (collectTitle acc ls).head? = some hd → ∃ r, hd = 'O' :: 'f' :: ' ' :: r := by
  induction ls with
  | nil => intro acc hacc; exact hacc
  | cons l ls ih =>
    intro acc hacc
    unfold collectTitle
    have hApp : (∀ hd, acc.head? = some hd → ∃ r, hd = 'O' :: 'f' :: ' ' :: r) →
        ("Of ".data.isPrefixOf l = true ∨ acc ≠ []) →
        ∀ hd, (acc ++ [l]).head? = some hd → ∃ r, hd = 'O' :: 'f' :: ' ' :: r := by
      intro hacc' hor hd hdef
      cases acc with
      | nil =>
        simp only [List.nil_append, List.head?_cons, Option.some.injEq] at hdef
        rcases hor with hof | hne
        · exact hdef ▸ isPrefixOf_Of hof
        · exact absurd rfl hne
      | cons a rest =>
        rw [head?_append_left (a :: rest) [l] (by simp)] at hdef
        exact hacc' hd hdef
    by_cases h1 : "Of ".data.isPrefixOf l
    · rw [if_pos h1]
      exact ih (acc ++ [l]) (hApp hacc (Or.inl h1))
    · rw [if_neg h1]
      by_cases h2 : (!acc.isEmpty && !l.isEmpty && !("[".data.isPrefixOf l)) = true
      · rw [if_pos h2]
        have hne : acc ≠ [] := by
          intro hemp
          rw [hemp] at h2
          simp at h2
        exact ih (acc ++ [l]) (hApp hacc (Or.inr hne))
      · rw [if_neg h2]
        by_cases h3 : (!acc.isEmpty) = true
        · rw [if_pos h3]; exact hacc
        · rw [if_neg h3]; exact ih acc hacc

theorem joinSpace_cons_exists (p : List Char) (ps : List (List Char)) :
    ∃ q, joinSpace (p :: ps) = p ++ q := by
  cases ps with
  | nil => exact ⟨[], by simp [joinSpace]⟩
  | cons q qs => exact ⟨' ' :: joinSpace (q :: qs), rfl⟩

/-- A reconstructed (nonempty) title always carries the `Of ` lead-in. -/
theorem collectTitle_join_Of {ls : List (List Char)} {parts : List (List Char)}
    (hparts : parts = collectTitle [] ls) (hne : ¬parts.isEmpty) :
    ∃ r, joinSpace parts = 'O' :: 'f' :: ' ' :: r := by
  cases hp : parts with
  | nil => rw [hp] at hne; simp at hne
  | cons p ps =>
    have hph : ∃ r, p = 'O' :: 'f' :: ' ' :: r := by
      refine collectTitle_head ls [] (by intro hd h0; simp at h0) p ?_
      rw [← hparts, hp]
      rfl
    obtain ⟨r, hr⟩ := hph
    obtain ⟨q, hq⟩ := joinSpace_cons_exists p ps
    exact ⟨r ++ q, by rw [hq, hr]; rfl⟩

theorem pyStripL_Of_head (z : List Char) :
    ∃ w, pyStripL ('O' :: 'f' :: ' ' :: z) = 'O' :: 'f' :: w := by
  unfold pyStripL
  rw [List.dropWhile_cons, if_neg (by decide)]
  have hrev : ('O' :: 'f' :: ' ' :: z : List Char).reverse = z.reverse ++ [' ', 'f', 'O'] := by
    simp
  rw [hrev]
  by_cases hz : (z.reverse.dropWhile isPySpace).isEmpty
  · have : (z.reverse ++ [' ', 'f', 'O']).dropWhile isPySpace = ['f', 'O'] := by
      rw [List.dropWhile_append]
      rw [if_pos hz]
      decide
    rw [this]
    exact ⟨[], rfl⟩
  · have : (z.reverse ++ [' ', 'f', 'O']).dropWhile isPySpace =
        z.reverse.dropWhile isPySpace ++ [' ', 'f', 'O'] := by
      rw [List.dropWhile_append]
      rw [if_neg hz]
    rw [this]
    refine ⟨' ' :: (z.reverse.dropWhile isPySpace).reverse, ?_⟩
    simp

theorem cleanTitleL_Of_head (r : List Char) :
    ∃ w, cleanTitleL ('O' :: 'f' :: ' ' :: r) = 'O' :: 'f' :: w := by
  have hv : ∀ (m : List Char → Option (List Char × List Char)), HeadBr m → ∀ s,
      subScan m ('O' :: 'f' :: ' ' :: s) = 'O' :: 'f' :: ' ' :: subScan m s := by
    intro m hm s
    rw [subScan_cons_nb hm (by decide), subScan_cons_nb hm (by decide),
      subScan_cons_nb hm (by decide)]
  have hvar : variantSubL ('O' :: 'f' :: ' ' :: r) = 'O' :: 'f' :: ' ' :: variantSubL r := by
    unfold variantSubL
    rw [hv _ headBr_mPairPU, hv _ headBr_mPairUP, hv _ headBr_mtP, hv _ headBr_mtU]
  unfold cleanTitleL
  rw [hvar]
  exact pyStripL_Of_head _

theorem stInv_emit {st : PState} (h : StInv st) :
    (∃ ns : List Nat, (emitIfAny st).map Section.chapter = ns.map (fun n => toString n) ∧
      List.Pairwise (· < ·) ns ∧ ∀ n ∈ ns, 1 ≤ n ∧ n < st.chapterNum + 1) ∧
    (∀ s ∈ emitIfAny st, ∃ raw cont : List Char,
      (∃ r, raw = 'O' :: 'f' :: ' ' :: r) ∧
      s.title = String.mk (cleanTitleL raw) ∧
      s.topics = getTopics (String.mk raw) ∧
      s.content = String.mk cont ∧ cont ≠ []) := by
  obtain ⟨hchap, htitle, ⟨ns, hproj, hpw, hbound⟩, hsecs⟩ := h
  rcases emitIfAny_sections_cases st with heq | ⟨c, t, hc, ht, hte, hce, heq⟩
  · rw [heq]
    refine ⟨⟨ns, hproj, hpw, fun n hn => ⟨(hbound n hn).1, Nat.lt_succ_of_lt (hbound n hn).2⟩⟩,
      hsecs⟩
  · have hcn : c = st.chapterNum := by
      rcases hchap with ⟨hnone, -⟩ | ⟨hsome, -⟩
      · rw [hnone] at hc; cases hc
      · rw [hsome] at hc; exact (Option.some.inj hc).symm
    rw [heq]
    constructor
    · refine ⟨ns ++ [c], ?_, ?_, ?_⟩
      · rw [List.map_append, List.map_append, hproj]
        rfl
      · rw [List.pairwise_append]
        refine ⟨hpw, List.pairwise_singleton _ _, ?_⟩
        intro a ha b hb
        rw [List.mem_singleton] at hb
        rw [hb, hcn]
        exact (hbound a ha).2
      · intro n hn
        rcases List.mem_append.mp hn with hn | hn
        · exact ⟨(hbound n hn).1, Nat.lt_succ_of_lt (hbound n hn).2⟩
        · rw [List.mem_singleton] at hn
          rcases hchap with ⟨hnone, -⟩ | ⟨-, hone⟩
          · rw [hnone] at hc; cases hc
          · rw [hn, hcn]
            exact ⟨hone, Nat.lt_succ_self _⟩
    · intro s hs
      rcases List.mem_append.mp hs with hs | hs
      · exact hsecs s hs
      · rw [List.mem_singleton] at hs
        refine ⟨t, cleanContentL st.currentContent (some t), htitle t ht, ?_, ?_, ?_, ?_⟩
        · rw [hs]
        · rw [hs]
        · rw [hs]
        · intro hemp
          exact hce (by rw [hemp]; rfl)

theorem stInv_step (l : String) (la : List String) {st : PState} (h : StInv st) :
    StInv (stepLine l la st) := by
  obtain ⟨hchap, htitle, hnums, hsecs⟩ := h
  unfold stepLine
  by_cases hh : isChapterHeader (pyStripL l.data)
  · rw [if_pos hh]
    obtain ⟨⟨ns, hproj, hpw, hbound⟩, hshape⟩ := stInv_emit ⟨hchap, htitle, hnums, hsecs⟩
    refine ⟨Or.inr ⟨rfl, Nat.le_add_left 1 st.chapterNum⟩, ?_, ?_, ?_⟩
    · intro t ht
      dsimp only at ht
      by_cases hp : (collectTitle [] ((la.take 9).map fun l => pyStripL l.data)).isEmpty
      · rw [if_pos hp] at ht
        cases ht
      · rw [if_neg hp] at ht
        obtain ⟨r, hr⟩ := collectTitle_join_Of rfl hp
        exact ⟨r, by rw [← Option.some.inj ht, hr]⟩
    · exact ⟨ns, hproj, hpw, hbound⟩
    · exact hshape
  · rw [if_neg hh]
    by_cases hskip : isSkipLine (pyStripL l.data) st.currentTitle
    · rw [if_pos hskip]
      exact ⟨hchap, htitle, hnums, hsecs⟩
    · rw [if_neg hskip]
      split
      next => exact ⟨hchap, htitle, hnums, hsecs⟩
      next c hc =>
        by_cases hba : matchBookA (pyStripL l.data)
        · rw [if_pos hba]
          exact ⟨hchap, htitle, hnums, hsecs⟩
        · rw [if_neg hba]
          by_cases hbb : matchBookB (pyStripL l.data)
          · rw [if_pos hbb]
            exact ⟨hchap, htitle, hnums, hsecs⟩
          · rw [if_neg hbb]
            exact ⟨hchap, htitle, hnums, hsecs⟩

theorem stInv_run (ls : List String) : ∀ st, StInv st → StInv (runLines ls st) := by
  induction ls with
  | nil => intro st h; exact h
  | cons l ls ih =>
    intro st h
    exact ih _ (stInv_step l ls h)

theorem stInv_init : StInv initState := by
  refine ⟨Or.inl ⟨rfl, rfl⟩, ?_, ⟨[], rfl, List.Pairwise.nil, ?_⟩, ?_⟩
  · intro t ht
    cases ht
  · intro n hn
    cases hn
  · intro s hs
    cases hs

theorem getTopics_fallback (raw : List Char)
    (h : ∀ kv ∈ chapterKeywords, occursIn kv.1.data (raw.map Char.toLower) = false) :
    getTopics (String.mk raw) = ["theology"] := by
  have hfold : ∀ (l : List (String × List String)) (acc : List String),
      (∀ kv ∈ l, occursIn kv.1.data (raw.map Char.toLower) = false) →
      l.foldl (fun acc kv =>
        if occursIn kv.1.data (raw.map Char.toLower) then acc ++ kv.2 else acc) acc = acc := by
    intro l
    induction l with
    | nil => intro acc _; rfl
    | cons kv t ih =>
      intro acc hall
      rw [List.foldl_cons, if_neg (by simp [hall kv (by simp)])]
      exact ih acc (fun kv' h' => hall kv' (by simp [h']))
  unfold getTopics
  dsimp only
  rw [hfold chapterKeywords [] h]
  rfl

/-! ### Claim C4: chapter numbers of the emitted sections -/

/-- Claim C4: in emission order the chapter numbers are strictly increasing
integers starting at or above 1; they need not be contiguous — an input
whose middle detected chapter has no resolvable title yields the chapters
"1", "3". -/
theorem c4 :
    (∀ lines : List String, ∃ ns : List Nat,
      (parseSections lines).map Section.chapter = ns.map (fun n => toString n) ∧
      List.Pairwise (· < ·) ns ∧ ∀ n ∈ ns, 1 ≤ n) ∧
    (parseSections
      ["CHAPTER I (PCUS)", "Of Alpha", "", "ContentA", "CHAPTER II (PCUS)",
        "x1", "x2", "x3", "x4", "x5", "x6", "x7", "x8", "x9",
        "CHAPTER III (PCUS)", "Of Gamma", "", "ContentC"]).map Section.chapter = ["1", "3"] := by
  constructor
  · intro lines
    obtain ⟨⟨ns, hproj, hpw, hb⟩, -⟩ := stInv_emit (stInv_run lines initState stInv_init)
    exact ⟨ns, hproj, hpw, fun n hn => (hb n hn).1⟩
  · decide

/-! ### Claim C6: emitted sections have nonempty content -/

/-- Claim C6: every Section in the output has nonempty cleaned content — a
detected chapter whose normalized content is empty or whose title is null
is dropped silently at both finalization points. -/
theorem c6 (lines : List String) : ∀ s ∈ parseSections lines, s.content ≠ "" := by
  intro s hs
  obtain ⟨-, hshape⟩ := stInv_emit (stInv_run lines initState stInv_init)
  obtain ⟨raw, cont, -, -, -, hcontent, hne⟩ := hshape s hs
  intro hemp
  rw [hemp] at hcontent
  exact hne (congrArg String.data hcontent).symm

/-- Witness for C6 at a concrete parsed input. -/
theorem c6_witness :
    (⟨"1", "Of God", "All men are sinners.",
      ["god", "trinity", "attributes"]⟩ : Section).content ≠ "" :=
  c6 ["CHAPTER I (PCUS)", "Of God", "", "All men are sinners.", "CHAPTER II (PCUS)"] _
    (by decide)

/-! ### Claim C3: topics of an emitted section -/

/-- Claim C3, counterexample: topics are computed from the raw
(pre-resolution) title, not the resolved one.  With raw title
`Of [PCUS God] [UPCUSA Providence]` the emitted topics include the
god-keyword topics, while scanning the resolved title `Of Providence`
would not. -/
theorem c3_counterexample :
    (parseSections
      ["CHAPTER I (PCUS)", "Of [PCUS God] [UPCUSA Providence]", "", "Hello world."]).map
        (fun s => s.topics) =
      [["god", "trinity", "attributes", "providence", "sovereignty"]] ∧
    (parseSections
      ["CHAPTER I (PCUS)", "Of [PCUS God] [UPCUSA Providence]", "", "Hello world."]).map
        (fun s => getTopics s.title) = [["providence", "sovereignty"]] ∧
    (["god", "trinity", "attributes", "providence", "sovereignty"] : List String) ≠
      ["providence", "sovereignty"] := by
  refine ⟨by decide, by decide, by decide⟩

/-- Claim C3 as amended: every emitted Section's topics list is
`get_topics` of the RAW (unresolved) title whose resolution is the
section's title field — the scan appends each matched key phrase's topics
in table iteration order over the raw title — and equals `["theology"]`
exactly when no key phrase occurs in that raw title. -/
theorem c3_amended (lines : List String) :
    ∀ s ∈ parseSections lines, ∃ raw : List Char,
      s.title = cleanTitle (String.mk raw) ∧
      s.topics = getTopics (String.mk raw) ∧
      ((∀ kv ∈ chapterKeywords, occursIn kv.1.data (raw.map Char.toLower) = false) →
        s.topics = ["theology"]) := by
  intro s hs
  obtain ⟨-, hshape⟩ := stInv_emit (stInv_run lines initState stInv_init)
  obtain ⟨raw, cont, -, htitle, htopics, -, -⟩ := hshape s hs
  refine ⟨raw, htitle, htopics, ?_⟩
  intro hnone
  rw [htopics]
  exact getTopics_fallback raw hnone

/-- Witness for the amended C3. -/
theorem c3_amended_witness :
    ∃ raw : List Char,
      (⟨"1", "Of Providence", "Hello world.",
        ["god", "trinity", "attributes", "providence", "sovereignty"]⟩ : Section).title =
        cleanTitle (String.mk raw) ∧
      (⟨"1", "Of Providence", "Hello world.",
        ["god", "trinity", "attributes", "providence", "sovereignty"]⟩ : Section).topics =
        getTopics (String.mk raw) ∧
      ((∀ kv ∈ chapterKeywords, occursIn kv.1.data (raw.map Char.toLower) = false) →
        (⟨"1", "Of Providence", "Hello world.",
          ["god", "trinity", "attributes", "providence", "sovereignty"]⟩ : Section).topics =
          ["theology"]) :=
  c3_amended ["CHAPTER I (PCUS)", "Of [PCUS God] [UPCUSA Providence]", "", "Hello world."] _
    (by decide)

/-! ### Claim C10: the title lead-in -/

/-- Claim C10, counterexample: an emitted title need not retain the
trailing space of the lead-in — when everything after the word `Of` is a
variant tag with a whitespace body, the final trim leaves exactly `Of`. -/
theorem c10_counterexample :
    (parseSections ["CHAPTER I (PCUS)", "Of [PCUS  ]", "", "Hello."]).map Section.title =
      ["Of"] ∧
    "Of ".data.isPrefixOf "Of".data = false := by
  refine ⟨by decide, by decide⟩

/-- Claim C10 as amended: every emitted Section's title starts with the
lead-in word `Of` (the following space can be trimmed away when nothing
printable survives after the word, as the counterexample shows). -/
theorem c10_amended (lines : List String) :
    ∀ s ∈ parseSections lines, ∃ w, s.title.data = 'O' :: 'f' :: w := by
  intro s hs
  obtain ⟨-, hshape⟩ := stInv_emit (stInv_run lines initState stInv_init)
  obtain ⟨raw, cont, ⟨r, hr⟩, htitle, -, -, -⟩ := hshape s hs
  obtain ⟨w, hw⟩ := cleanTitleL_Of_head r
  refine ⟨w, ?_⟩
  rw [htitle]
  show cleanTitleL raw = 'O' :: 'f' :: w
  rw [hr]
  exact hw

/-- Witness for the amended C10. -/
theorem c10_amended_witness :
    ∃ w, (⟨"1", "Of God", "All men are sinners.",
      ["god", "trinity", "attributes"]⟩ : Section).title.data = 'O' :: 'f' :: w :=
  c10_amended ["CHAPTER I (PCUS)", "Of God", "", "All men are sinners.", "CHAPTER II (PCUS)"] _
    (by decide)

/-! ### Claim C9: front matter before the first header is discarded -/

theorem stepLine_inert (l : String) (la : List String)
    (h : isChapterHeader (pyStripL l.data) = false) :
    stepLine l la initState = initState := by
  unfold stepLine
  rw [if_neg (by simp [h])]
  by_cases hskip : isSkipLine (pyStripL l.data) initState.currentTitle
  · rw [if_pos hskip]
  · rw [if_neg hskip]
    rfl

theorem runLines_skip_pre (rest : List String) : ∀ pre : List String,
    (∀ l ∈ pre, isChapterHeader (pyStripL l.data) = false) →
    runLines (pre ++ rest) initState = runLines rest initState := by
  intro pre
  induction pre with
  | nil => intro _; rfl
  | cons l pre ih =>
    intro h
    show runLines (pre ++ rest) (stepLine l (pre ++ rest) initState) = runLines rest initState
    rw [stepLine_inert l (pre ++ rest) (h l (by simp))]
    exact ih (fun l' hl' => h l' (by simp [hl']))

/-- Claim C9: lines before the first detected chapter header never reach
any emitted Section — prepending header-free front matter leaves the
output unchanged, because no state changes before a chapter is open. -/
theorem c9 (pre rest : List String)
    (h : ∀ l ∈ pre, isChapterHeader (pyStripL l.data) = false) :
    parseSections (pre ++ rest) = parseSections rest := by
  unfold parseSections
  rw [runLines_skip_pre rest pre h]

/-- Witness for C9. -/
theorem c9_witness :
    parseSections (["Presbyterian Church front matter", "some preamble text"] ++
      ["CHAPTER I (PCUS)", "Of God", "", "All men are sinners."]) =
    parseSections ["CHAPTER I (PCUS)", "Of God", "", "All men are sinners."] :=
  c9 ["Presbyterian Church front matter", "some preamble text"]
    ["CHAPTER I (PCUS)", "Of God", "", "All men are sinners."] (by decide)

/-! ### Claim C8: the two-header end-to-end scenario -/

theorem collectTitle_nil_of_noOf : ∀ ls : List (List Char),
    (∀ l ∈ ls, "Of ".data.isPrefixOf l = false) → collectTitle [] ls = [] := by
  intro ls
  induction ls with
  | nil => intro _; rfl
  | cons l t ih =>
    intro h
    unfold collectTitle
    rw [if_neg (by simp [h l (by simp)]), if_neg (by simp), if_neg (by simp)]
    exact ih (fun l' hl' => h l' (by simp [hl']))

theorem noOf_strip_take {rest : List String}
    (hrest : ∀ l ∈ rest, "Of ".data.isPrefixOf (pyStripL l.data) = false) :
    ∀ l ∈ (rest.take 9).map (fun l => pyStripL l.data), "Of ".data.isPrefixOf l = false := by
  intro l hl
  obtain ⟨l', hl', rfl⟩ := List.mem_map.mp hl
  exact hrest l' (List.take_subset _ _ hl')

/-- After the second header with no `Of `-line ahead, the loop can only
accumulate content that is never emitted: the sections list is final. -/
theorem runLines_no_emit (rest : List String) : ∀ st : PState, st.currentTitle = none →
    (∀ l ∈ rest, "Of ".data.isPrefixOf (pyStripL l.data) = false) →
    emitIfAny (runLines rest st) = st.sections := by
  induction rest with
  | nil =>
    intro st hti _
    rcases emitIfAny_sections_cases st with heq | ⟨c, t, hc, ht, -, -, -⟩
    · exact heq
    · rw [hti] at ht; cases ht
  | cons l ls ih =>
    intro st hti h
    show emitIfAny (runLines ls (stepLine l ls st)) = st.sections
    have hstep : (stepLine l ls st).currentTitle = none ∧
        (stepLine l ls st).sections = st.sections := by
      unfold stepLine
      by_cases hh : isChapterHeader (pyStripL l.data)
      · rw [if_pos hh]
        constructor
        · dsimp only
          rw [collectTitle_nil_of_noOf _ (noOf_strip_take (fun l' hl' => h l' (by simp [hl'])))]
          rfl
        · dsimp only
          rcases emitIfAny_sections_cases st with heq | ⟨c, t, hc, ht, -, -, -⟩
          · exact heq
          · rw [hti] at ht; cases ht
      · rw [if_neg hh]
        by_cases hskip : isSkipLine (pyStripL l.data) st.currentTitle
        · rw [if_pos hskip]; exact ⟨hti, rfl⟩
        · rw [if_neg hskip]
          split
          next => exact ⟨hti, rfl⟩
          next cnum hc =>
            by_cases hba : matchBookA (pyStripL l.data)
            · rw [if_pos hba]; exact ⟨hti, rfl⟩
            · rw [if_neg hba]
              by_cases hbb : matchBookB (pyStripL l.data)
              · rw [if_pos hbb]; exact ⟨hti, rfl⟩
              · rw [if_neg hbb]; exact ⟨hti, rfl⟩
    obtain ⟨h1, h2⟩ := hstep
    rw [← h2]
    exact ih _ h1 (fun l' hl' => h l' (by simp [hl']))

/-- Claim C8: in a two-header input whose first chapter has a resolvable
title and one surviving content line while the second chapter finds no
`Of `-line in its lookahead (nor anywhere later), the output is exactly one
section with chapter "1". -/
theorem c8 (h1 t c h2 : String) (rest : List String)
    (hh1 : isChapterHeader (pyStripL h1.data) = true)
    (hh2 : isChapterHeader (pyStripL h2.data) = true)
    (hts : "Of ".data.isPrefixOf (pyStripL t.data) = true)
    (htnh : isChapterHeader (pyStripL t.data) = false)
    (hcnh : isChapterHeader (pyStripL c.data) = false)
    (hcs : isSkipLine (pyStripL c.data) (some (pyStripL t.data)) = false)
    (hca : matchBookA (pyStripL c.data) = false)
    (hcb : matchBookB (pyStripL c.data) = false)
    (hcc : cleanContentL [pyStripL c.data] (some (pyStripL t.data)) ≠ [])
    (hrest : ∀ l ∈ rest, "Of ".data.isPrefixOf (pyStripL l.data) = false) :
    (parseSections (h1 :: t :: "" :: c :: h2 :: rest)).map Section.chapter = ["1"] := by
  obtain ⟨rOf, hrOf⟩ := isPrefixOf_Of hts
  have hst1 : stepLine h1 (t :: "" :: c :: h2 :: rest) initState =
      ⟨[], some 1, some (pyStripL t.data), [], 1⟩ := by
    unfold stepLine
    rw [if_pos hh1]
    have hparts : collectTitle []
        (((t :: "" :: c :: h2 :: rest).take 9).map (fun l => pyStripL l.data)) =
        [pyStripL t.data] := by
      show collectTitle []
        (pyStripL t.data ::
          (("" :: c :: h2 :: rest.take 5).map (fun l => pyStripL l.data))) = [pyStripL t.data]
      unfold collectTitle
      rw [if_pos hts]
      rfl
    rw [hparts]
    rfl
  have hst4 : stepLine c (h2 :: rest) ⟨[], some 1, some (pyStripL t.data), [], 1⟩ =
      ⟨[], some 1, some (pyStripL t.data), [pyStripL c.data], 1⟩ := by
    unfold stepLine
    dsimp only
    rw [if_neg (by simp [hcnh]), if_neg (by simp [hcs]), if_neg (by simp [hca]),
      if_neg (by simp [hcb])]
    rfl
  have hsec1 : emitIfAny ⟨[], some 1, some (pyStripL t.data), [pyStripL c.data], 1⟩ =
      [⟨toString 1, String.mk (cleanTitleL (pyStripL t.data)),
        String.mk (cleanContentL [pyStripL c.data] (some (pyStripL t.data))),
        getTopics (String.mk (pyStripL t.data))⟩] := by
    unfold emitIfAny
    dsimp only
    rw [if_neg (by rw [hrOf]; simp), if_neg (by simp [hcc])]
    rfl
  have hst5 : stepLine h2 rest ⟨[], some 1, some (pyStripL t.data), [pyStripL c.data], 1⟩ =
      ⟨[⟨toString 1, String.mk (cleanTitleL (pyStripL t.data)),
          String.mk (cleanContentL [pyStripL c.data] (some (pyStripL t.data))),
          getTopics (String.mk (pyStripL t.data))⟩], some 2, none, [], 2⟩ := by
    unfold stepLine
    rw [if_pos hh2]
    rw [collectTitle_nil_of_noOf _ (noOf_strip_take hrest)]
    rw [hsec1]
    rfl
  show (emitIfAny (runLines (t :: "" :: c :: h2 :: rest)
      (stepLine h1 (t :: "" :: c :: h2 :: rest) initState))).map Section.chapter = ["1"]
  rw [hst1]
  have hstT : stepLine t ("" :: c :: h2 :: rest)
      ⟨[], some 1, some (pyStripL t.data), [], 1⟩ =
      ⟨[], some 1, some (pyStripL t.data), [], 1⟩ := by
    unfold stepLine
    dsimp only
    rw [if_neg (by simp [htnh]), if_pos (by simp [isSkipLine, hts])]
  show (emitIfAny (runLines ("" :: c :: h2 :: rest)
      (stepLine t ("" :: c :: h2 :: rest) ⟨[], some 1, some (pyStripL t.data), [], 1⟩))).map
      Section.chapter = ["1"]
  rw [hstT]
  have hstE : stepLine "" (c :: h2 :: rest) ⟨[], some 1, some (pyStripL t.data), [], 1⟩ =
      ⟨[], some 1, some (pyStripL t.data), [], 1⟩ := by
    unfold stepLine
    dsimp only
    rw [if_neg (by decide),
      if_pos (show isSkipLine (pyStripL "".data) (some (pyStripL t.data)) = true from rfl)]
  show (emitIfAny (runLines (c :: h2 :: rest)
      (stepLine "" (c :: h2 :: rest) ⟨[], some 1, some (pyStripL t.data), [], 1⟩))).map
      Section.chapter = ["1"]
  rw [hstE]
  show (emitIfAny (runLines (h2 :: rest)
      (stepLine c (h2 :: rest) ⟨[], some 1, some (pyStripL t.data), [], 1⟩))).map
      Section.chapter = ["1"]
  rw [hst4]
  show (emitIfAny (runLines rest
      (stepLine h2 rest ⟨[], some 1, some (pyStripL t.data), [pyStripL c.data], 1⟩))).map
      Section.chapter = ["1"]
  rw [hst5]
  rw [runLines_no_emit rest _ rfl hrest]
  rfl

/-- Witness for C8. -/
theorem c8_witness :
    (parseSections
      ["CHAPTER I (PCUS)", "Of God", "", "All men are sinners.",
        "CHAPTER II (PCUS)"]).map Section.chapter = ["1"] :=
  c8 "CHAPTER I (PCUS)" "Of God" "All men are sinners." "CHAPTER II (PCUS)" []
    (by decide) (by decide) (by decide) (by decide) (by decide) (by decide) (by decide)
    (by decide) (by decide) (by decide)

/-! ### Claim C5: emitted sections versus detected headers -/

theorem statusOf_closed {st : PState} (h : st.currentChapter = none) : statusOf st = none := by
  simp [statusOf, h]

theorem statusOf_noTitle {st : PState} {c : Nat} (hc : st.currentChapter = some c)
    (ht : st.currentTitle = none) : statusOf st = some ChapStatus.noTitle := by
  simp [statusOf, hc, ht]

theorem statusOf_noTitle2 {st : PState} {c : Nat} {t : List Char}
    (hc : st.currentChapter = some c) (ht : st.currentTitle = some t) (hte : t.isEmpty) :
    statusOf st = some ChapStatus.noTitle := by
  simp [statusOf, hc, ht, hte]

theorem statusOf_emptyContent {st : PState} {c : Nat} {t : List Char}
    (hc : st.currentChapter = some c) (ht : st.currentTitle = some t) (hte : ¬t.isEmpty)
    (hce : (cleanContentL st.currentContent (some t)).isEmpty) :
    statusOf st = some ChapStatus.emptyContent := by
  simp [statusOf, hc, ht, hte, hce]

theorem statusOf_emitted {st : PState} {c : Nat} {t : List Char}
    (hc : st.currentChapter = some c) (ht : st.currentTitle = some t) (hte : ¬t.isEmpty)
    (hce : ¬(cleanContentL st.currentContent (some t)).isEmpty) :
    statusOf st = some ChapStatus.emitted := by
  simp [statusOf, hc, ht, hte, hce]

theorem statusOf_open {st : PState} {c : Nat} (hc : st.currentChapter = some c) :
    ∃ s, statusOf st = some s := by
  cases ht : st.currentTitle with
  | none => exact ⟨_, statusOf_noTitle hc ht⟩
  | some t =>
    by_cases hte : t.isEmpty
    · exact ⟨_, statusOf_noTitle2 hc ht hte⟩
    · by_cases hce : (cleanContentL st.currentContent (some t)).isEmpty
      · exact ⟨_, statusOf_emptyContent hc ht hte hce⟩
      · exact ⟨_, statusOf_emitted hc ht hte hce⟩

theorem emit_status_len (st : PState) :
    (emitIfAny st).length = st.sections.length +
      (if statusOf st = some ChapStatus.emitted then 1 else 0) := by
  unfold emitIfAny
  split
  next h => rw [statusOf_closed h]; simp
  next c h =>
    split
    next ht => rw [statusOf_noTitle h ht]; simp
    next t ht =>
      by_cases hte : t.isEmpty
      · rw [if_pos hte, statusOf_noTitle2 h ht hte]; simp
      · rw [if_neg hte]
        by_cases hce : (cleanContentL st.currentContent (some t)).isEmpty
        · rw [if_pos hce, statusOf_emptyContent h ht hte hce]; simp
        · rw [if_neg hce, statusOf_emitted h ht hte hce]; simp

theorem pushStatus_len_closed {st : PState} (acc : List ChapStatus)
    (h : st.currentChapter = none) : pushStatus st acc = acc := by
  unfold pushStatus
  rw [statusOf_closed h]

theorem pushStatus_countE (st : PState) (acc : List ChapStatus) :
    countEmitted (pushStatus st acc) = countEmitted acc +
      (if statusOf st = some ChapStatus.emitted then 1 else 0) := by
  unfold pushStatus
  cases hs : statusOf st with
  | none => simp [countEmitted]
  | some s => cases s <;> simp [countEmitted, List.filter_append]

theorem pushStatus_len_open {st : PState} {c : Nat} (acc : List ChapStatus)
    (h : st.currentChapter = some c) : (pushStatus st acc).length = acc.length + 1 := by
  obtain ⟨s, hs⟩ := statusOf_open h
  unfold pushStatus
  rw [hs]
  simp

theorem stepLine_header (l : String) (la : List String) (st : PState)
    (hh : isChapterHeader (pyStripL l.data)) :
    (stepLine l la st).currentChapter = some (st.chapterNum + 1) ∧
    (stepLine l la st).sections = emitIfAny st := by
  unfold stepLine
  rw [if_pos hh]
  exact ⟨rfl, rfl⟩

theorem stepLine_nonheader (l : String) (la : List String) (st : PState)
    (hh : ¬isChapterHeader (pyStripL l.data)) :
    (stepLine l la st).currentChapter = st.currentChapter ∧
    (stepLine l la st).sections = st.sections := by
  unfold stepLine
  rw [if_neg hh]
  by_cases hskip : isSkipLine (pyStripL l.data) st.currentTitle
  · rw [if_pos hskip]; exact ⟨rfl, rfl⟩
  · rw [if_neg hskip]
    split
    next => exact ⟨rfl, rfl⟩
    next c hc =>
      by_cases hba : matchBookA (pyStripL l.data)
      · rw [if_pos hba]; exact ⟨rfl, rfl⟩
      · rw [if_neg hba]
        by_cases hbb : matchBookB (pyStripL l.data)
        · rw [if_pos hbb]; exact ⟨rfl, rfl⟩
        · rw [if_neg hbb]; exact ⟨rfl, rfl⟩

theorem headerCount_cons_pos {l : String} (ls : List String)
    (hh : isChapterHeader (pyStripL l.data) = true) :
    headerCount (l :: ls) = headerCount ls + 1 := by
  simp [headerCount, List.filter_cons, hh]

theorem headerCount_cons_neg {l : String} (ls : List String)
    (hh : ¬isChapterHeader (pyStripL l.data) = true) :
    headerCount (l :: ls) = headerCount ls := by
  simp [headerCount, List.filter_cons, hh]

theorem runStatuses_len_open : ∀ (ls : List String) (st : PState) (acc : List ChapStatus),
    st.currentChapter ≠ none →
    (runStatuses ls st acc).length = acc.length + headerCount ls + 1 := by
  intro ls
  induction ls with
  | nil =>
    intro st acc h
    obtain ⟨c, hc⟩ := Option.ne_none_iff_exists'.mp h
    show (pushStatus st acc).length = acc.length + headerCount [] + 1
    rw [pushStatus_len_open acc hc]
    rfl
  | cons l ls ih =>
    intro st acc h
    obtain ⟨c, hc⟩ := Option.ne_none_iff_exists'.mp h
    simp only [runStatuses]
    by_cases hh : isChapterHeader (pyStripL l.data)
    · rw [if_pos hh]
      have hopen : (stepLine l ls st).currentChapter ≠ none := by
        rw [(stepLine_header l ls st hh).1]
        simp
      rw [ih _ _ hopen, pushStatus_len_open acc hc, headerCount_cons_pos ls hh]
      omega
    · rw [if_neg hh]
      have hopen : (stepLine l ls st).currentChapter ≠ none := by
        rw [(stepLine_nonheader l ls st hh).1, hc]
        simp
      rw [ih _ _ hopen, headerCount_cons_neg ls hh]

theorem runStatuses_len_closed : ∀ (ls : List String) (st : PState) (acc : List ChapStatus),
    st.currentChapter = none →
    (runStatuses ls st acc).length = acc.length + headerCount ls := by
  intro ls
  induction ls with
  | nil =>
    intro st acc h
    show (pushStatus st acc).length = acc.length + headerCount []
    rw [pushStatus_len_closed acc h]
    rfl
  | cons l ls ih =>
    intro st acc h
    simp only [runStatuses]
    by_cases hh : isChapterHeader (pyStripL l.data)
    · rw [if_pos hh]
      have hopen : (stepLine l ls st).currentChapter ≠ none := by
        rw [(stepLine_header l ls st hh).1]
        simp
      rw [runStatuses_len_open ls _ _ hopen, pushStatus_len_closed acc h,
        headerCount_cons_pos ls hh]
      omega
    · rw [if_neg hh]
      have hclosed : (stepLine l ls st).currentChapter = none := by
        rw [(stepLine_nonheader l ls st hh).1, h]
      rw [ih _ _ hclosed, headerCount_cons_neg ls hh]

theorem emit_count : ∀ (ls : List String) (st : PState) (acc : List ChapStatus),
    (emitIfAny (runLines ls st)).length + countEmitted acc =
      st.sections.length + countEmitted (runStatuses ls st acc) := by
  intro ls
  induction ls with
  | nil =>
    intro st acc
    show (emitIfAny st).length + countEmitted acc =
      st.sections.length + countEmitted (pushStatus st acc)
    rw [emit_status_len st, pushStatus_countE]
    omega
  | cons l ls ih =>
    intro st acc
    simp only [runStatuses, runLines]
    by_cases hh : isChapterHeader (pyStripL l.data)
    · rw [if_pos hh]
      have h1 := ih (stepLine l ls st) (pushStatus st acc)
      rw [(stepLine_header l ls st hh).2, emit_status_len st, pushStatus_countE] at h1
      omega
    · rw [if_neg hh]
      have h1 := ih (stepLine l ls st) acc
      rw [(stepLine_nonheader l ls st hh).2] at h1
      exact h1

theorem parseStatuses_len (lines : List String) :
    (parseStatuses lines).length = headerCount lines := by
  have h := runStatuses_len_closed lines initState [] rfl
  simpa [parseStatuses] using h

theorem parse_len_eq_countE (lines : List String) :
    (parseSections lines).length = countEmitted (parseStatuses lines) := by
  have h := emit_count lines initState []
  simpa [parseSections, parseStatuses, countEmitted, initState] using h

/-- Claim C5: the number of emitted Sections never exceeds the number of
lines matching the chapter-header pattern, and whenever the two differ some
detected chapter's finalization failed for one of exactly the two stated
reasons: no resolvable title, or empty normalized content. -/
theorem c5 (lines : List String) :
    (parseSections lines).length ≤ headerCount lines ∧
    ((parseSections lines).length ≠ headerCount lines →
      ∃ s ∈ parseStatuses lines,
        s = ChapStatus.noTitle ∨ s = ChapStatus.emptyContent) := by
  have hlen := parse_len_eq_countE lines
  have hst := parseStatuses_len lines
  constructor
  · rw [hlen, ← hst]
    exact List.length_filter_le _ _
  · intro hne
    by_contra hforall
    push_neg at hforall
    have hall : ∀ s ∈ parseStatuses lines, (fun s => s == ChapStatus.emitted) s = true := by
      intro s hs
      have hnot := hforall s hs
      cases s
      · rfl
      · exact absurd rfl hnot.1
      · exact absurd rfl hnot.2
    apply hne
    rw [hlen, ← hst]
    unfold countEmitted
    rw [List.filter_eq_self.mpr hall]

/-- Witness for C5: one detected header, no resolvable title, so zero
sections were emitted and the dropped chapter's status records the cause. -/
theorem c5_witness :
    ∃ s ∈ parseStatuses ["CHAPTER I (PCUS)"],
      s = ChapStatus.noTitle ∨ s = ChapStatus.emptyContent :=
  (c5 ["CHAPTER I (PCUS)"]).2 (by decide)

end Westminster
